import Mathlib

/-
Verification of the Cluster graph-abstraction library
(src/cluster/src/lib.rs) against its specification.

The library has three layers:
 * `Mappable<K,V>` — a keyed-store contract, implemented for `HashMap<K,V>`.
   We model the store as an association list `List (K × N)`; all claims are
   stated through `get` / `contains_key` / `remove`, whose results do not
   depend on entry order, so an association list with the HashMap operations
   (insert replaces in place, remove deletes the matching entry) is a
   faithful model.
 * `Settable<V> for Vec<V>` — `add` pushes a value only when absent,
   `remove` deletes the first occurrence by position.
 * `Cluster` — default edge operations over a store of `Node`s. A node
   exposes an adjacency list `Vec<K>` and may carry an arbitrary extra
   payload; we model it as a structure with an `adj` field and an opaque
   `payload` field.

Rust edge operations mutate `self` in place and propagate errors with `?`,
so a failing second half of a composite operation still leaves the first
half's mutation in the store. We model every edge operation as a function
returning `Except ClusterError Unit × Store`: the result and the (possibly
mutated) state, where an error keeps the state reached so far.
-/

deriving instance DecidableEq for Except

namespace ClusterLib

/-- Model of the Rust struct `ClusterError { detail: String }`. -/
structure ClusterError where
  detail : String
deriving DecidableEq, Repr

/-- Model of `ClusterError::detailled`. -/
def ClusterError.detailled (message : String) : ClusterError :=
  ⟨message⟩

/-- A node of the graph: its adjacency list (`Node::adj` / `Node::adj_mut`)
plus an opaque payload standing for whatever other data the value type
carries. -/
structure GNode (K : Type) (P : Type) where
  adj : List K
  payload : P
deriving DecidableEq, Repr

/-- The keyed store backing the graph, modelled as an association list. -/
abbrev Store (K : Type) (N : Type) := List (K × N)

namespace Store

variable {K N : Type} [DecidableEq K]

/-- Model of `HashMap::get` through `Mappable::get`: the value at the first
entry whose key matches. -/
def get (s : Store K N) (k : K) : Option N :=
  match s with
  | [] => none
  | (k', v) :: rest => if k' = k then some v else get rest k

/-- Model of `HashMap::insert` through `Mappable::add`: replace the value in
place when the key is present (returning the previous value), append a new
entry otherwise. -/
def add (s : Store K N) (k : K) (v : N) : Option N × Store K N :=
  match s with
  | [] => (none, [(k, v)])
  | (k', v') :: rest =>
    if k' = k then (some v', (k, v) :: rest)
    else
      let r := add rest k v
      (r.1, (k', v') :: r.2)

/-- Model of `HashMap::remove` through `Mappable::remove`: delete the entry
whose key matches and return its value. -/
def remove (s : Store K N) (k : K) : Option N × Store K N :=
  match s with
  | [] => (none, [])
  | (k', v') :: rest =>
    if k' = k then (some v', rest)
    else
      let r := remove rest k
      (r.1, (k', v') :: r.2)

/-- Model of `HashMap::contains_key` through `Mappable::contains_key`. -/
def containsKey (s : Store K N) (k : K) : Bool :=
  match s with
  | [] => false
  | (k', _) :: rest => k' = k || containsKey rest k

end Store

variable {K P : Type} [DecidableEq K]

/-- Model of `<Vec<V> as Settable<V>>::contains`:
`self.as_slice().contains(val)`. -/
def settableContains (l : List K) (v : K) : Bool :=
  l.any (fun i => i = v)

/-- Model of `<Vec<V> as Settable<V>>::add`: push the value only when it is
not already contained. -/
def settableAdd (l : List K) (v : K) : List K :=
  if settableContains l v then l else l ++ [v]

/-- Model of removing the first occurrence of a value by position:
`if let Some(index) = self.iter().position(|i| *i == *val) {
self.remove(index); }`. This is the body of `<Vec<V> as Settable<V>>::remove`
and is inlined verbatim in `Cluster::remove_edge`. -/
def positionRemove (l : List K) (v : K) : List K :=
  match l.findIdx? (fun i => i = v) with
  | some index => l.eraseIdx index
  | none => l

/-- Model of `Cluster::get_adj`: `self.get(key).map(|n| n.adj())`. -/
def get_adj (s : Store K (GNode K P)) (k : K) : Option (List K) :=
  (Store.get s k).map GNode.adj

/-- Model of obtaining `get_adj_mut(&k)` and mutating the adjacency list in
place: rewrite the first entry whose key matches, applying `f` to its
adjacency list; `none` when the key is absent (as `get_mut` returns `None`). -/
def modifyAdj (s : Store K (GNode K P)) (k : K) (f : List K → List K) :
    Option (Store K (GNode K P)) :=
  match s with
  | [] => none
  | (k', v) :: rest =>
    if k' = k then some ((k', ⟨f v.adj, v.payload⟩) :: rest)
    else (modifyAdj rest k f).map (fun r => (k', v) :: r)

/-- Model of the graph-level `Cluster::add`: mint a key with `new_key`,
insert the node, return the key. `new_key` has no default body in the trait,
so it is passed in as a function of the store. -/
def cluster_add (newKey : Store K (GNode K P) → K)
    (s : Store K (GNode K P)) (node : GNode K P) : K × Store K (GNode K P) :=
  let key := newKey s
  (key, (Store.add s key node).2)

/-- Model of `Cluster::add_edge`: fetch `src`'s adjacency list mutably
(error when `src` is absent) and `Settable::add` `dst` to it. -/
def add_edge (s : Store K (GNode K P)) (src dst : K) :
    Except ClusterError Unit × Store K (GNode K P) :=
  match modifyAdj s src (fun adj => settableAdd adj dst) with
  | some s' => (Except.ok (), s')
  | none =>
    (Except.error (ClusterError.detailled
      "To add edge, both node must exists in the Cluster."), s)

/-- Model of `Cluster::remove_edge`: fetch `src`'s adjacency list mutably
(error when `src` is absent) and remove the first occurrence of `dst` by
position, a no-op when absent. -/
def remove_edge (s : Store K (GNode K P)) (src dst : K) :
    Except ClusterError Unit × Store K (GNode K P) :=
  match modifyAdj s src (fun adj => positionRemove adj dst) with
  | some s' => (Except.ok (), s')
  | none =>
    (Except.error (ClusterError.detailled "<src> node does not exists."), s)

/-- Model of `Cluster::add_doubly_edge`: `add_edge(src, dst)?` then
`add_edge(dst, src)?`; an error from either half is returned with the state
reached so far (no rollback). -/
def add_doubly_edge (s : Store K (GNode K P)) (src dst : K) :
    Except ClusterError Unit × Store K (GNode K P) :=
  let r1 := add_edge s src dst
  match r1.1 with
  | Except.error e => (Except.error e, r1.2)
  | Except.ok _ => add_edge r1.2 dst src

/-- Model of `Cluster::remove_doubly_edge`: `remove_edge(src, dst)?` then
`remove_edge(dst, src)?`; an error from either half is returned with the
state reached so far (no rollback). -/
def remove_doubly_edge (s : Store K (GNode K P)) (src dst : K) :
    Except ClusterError Unit × Store K (GNode K P) :=
  let r1 := remove_edge s src dst
  match r1.1 with
  | Except.error e => (Except.error e, r1.2)
  | Except.ok _ => remove_edge r1.2 dst src

/-- Membership as a Bool agrees with `Option.isSome` of lookup. -/
theorem Store.containsKey_eq_isSome_get {N : Type} (s : Store K N) (k : K) :
    Store.containsKey s k = (Store.get s k).isSome := by
  induction s with
  | nil => rfl
  | cons p rest ih =>
    by_cases h : p.1 = k
    · simp [Store.containsKey, Store.get, h]
    · simp [Store.containsKey, Store.get, h, ih]

/-- Lookup after insertion at the inserted key yields the inserted value. -/
theorem Store.get_add_self {N : Type} (s : Store K N) (k : K) (v : N) :
    Store.get (Store.add s k v).2 k = some v := by
  induction s with
  | nil => simp [Store.add, Store.get]
  | cons p rest ih =>
    by_cases h : p.1 = k
    · simp [Store.add, Store.get, h]
    · simp [Store.add, Store.get, h, ih]

/-- Lookup after insertion at a different key is unchanged. -/
theorem Store.get_add_ne {N : Type} (s : Store K N) (k k' : K) (v : N)
    (hne : k' ≠ k) : Store.get (Store.add s k v).2 k' = Store.get s k' := by
  have hkk' : ¬ k = k' := fun hc => hne (Eq.symm hc)
  induction s with
  | nil => simp [Store.add, Store.get, hkk']
  | cons p rest ih =>
    obtain ⟨k₀, v₀⟩ := p
    by_cases h : k₀ = k
    · have h0 : ¬ k₀ = k' := fun hc => hne (hc ▸ h)
      simp [Store.add, Store.get, h, h0, hkk']
    · by_cases h' : k₀ = k'
      · simp [Store.add, Store.get, h, h', hne]
      · simp [Store.add, Store.get, h, h', ih]

/-- The value `remove` returns is exactly what `get` saw at that key. -/
theorem Store.remove_fst {N : Type} (s : Store K N) (k : K) :
    (Store.remove s k).1 = Store.get s k := by
  induction s with
  | nil => rfl
  | cons p rest ih =>
    by_cases h : p.1 = k
    · simp [Store.remove, Store.get, h]
    · simp [Store.remove, Store.get, h, ih]

/-- Removal at one key leaves lookups at every other key unchanged. -/
theorem Store.get_remove_ne {N : Type} (s : Store K N) (k k' : K)
    (hne : k' ≠ k) : Store.get (Store.remove s k).2 k' = Store.get s k' := by
  have hkk' : ¬ k = k' := fun hc => hne (Eq.symm hc)
  induction s with
  | nil => rfl
  | cons p rest ih =>
    obtain ⟨k₀, v₀⟩ := p
    by_cases h : k₀ = k
    · have h0 : ¬ k₀ = k' := fun hc => hne (hc ▸ h)
      simp [Store.remove, Store.get, h, h0, hkk']
    · by_cases h' : k₀ = k'
      · simp [Store.remove, Store.get, h, h', hne]
      · simp [Store.remove, Store.get, h, h', ih]

/-- An in-place adjacency update fails exactly when the key is absent. -/
theorem modifyAdj_eq_none_iff (s : Store K (GNode K P)) (k : K)
    (f : List K → List K) : modifyAdj s k f = none ↔ Store.get s k = none := by
  induction s with
  | nil => simp [modifyAdj, Store.get]
  | cons p rest ih =>
    obtain ⟨k', v⟩ := p
    by_cases h : k' = k
    · simp [modifyAdj, Store.get, h]
    · simp [modifyAdj, Store.get, h, ih]

/-- After an in-place adjacency update at `k`, the node at `k` has its
adjacency list rewritten by `f` and its payload untouched. -/
theorem get_modifyAdj_self (s s' : Store K (GNode K P)) (k : K)
    (f : List K → List K) (h : modifyAdj s k f = some s') :
    Store.get s' k = (Store.get s k).map (fun v => ⟨f v.adj, v.payload⟩) := by
  induction s generalizing s' with
  | nil => simp [modifyAdj] at h
  | cons p rest ih =>
    obtain ⟨k', v⟩ := p
    by_cases hk : k' = k
    · simp [modifyAdj, hk] at h
      subst h
      simp [Store.get, hk]
    · simp [modifyAdj, hk] at h
      obtain ⟨r, hr, hs'⟩ := h
      subst hs'
      simp [Store.get, hk]
      exact ih r hr

/-- An in-place adjacency update at `k` leaves every other key's node
unchanged. -/
theorem get_modifyAdj_ne (s s' : Store K (GNode K P)) (k k' : K)
    (f : List K → List K) (hne : k' ≠ k) (h : modifyAdj s k f = some s') :
    Store.get s' k' = Store.get s k' := by
  have hkk' : ¬ k = k' := fun hc => hne (Eq.symm hc)
  induction s generalizing s' with
  | nil => simp [modifyAdj] at h
  | cons p rest ih =>
    obtain ⟨k₀, v⟩ := p
    by_cases hk : k₀ = k
    · simp [modifyAdj, hk] at h
      subst h
      have hk0 : ¬ k₀ = k' := fun hc => hne (hc ▸ hk)
      simp [Store.get, hk0, hkk']
    · simp [modifyAdj, hk] at h
      obtain ⟨r, hr, hs'⟩ := h
      subst hs'
      by_cases hk0 : k₀ = k'
      · simp [Store.get, hk0]
      · simp [Store.get, hk0]
        exact ih r hr

/-- An in-place adjacency update that does not change the adjacency list of
the node it targets leaves the whole store unchanged. -/
theorem modifyAdj_self_eq (s : Store K (GNode K P)) (k : K)
    (f : List K → List K) (v : GNode K P) (hget : Store.get s k = some v)
    (hf : f v.adj = v.adj) : modifyAdj s k f = some s := by
  induction s with
  | nil => simp [Store.get] at hget
  | cons p rest ih =>
    obtain ⟨k', v'⟩ := p
    by_cases hk : k' = k
    · simp [Store.get, hk] at hget
      subst hget
      simp [modifyAdj, hk, hf]
    · simp [Store.get, hk] at hget
      simp [modifyAdj, hk, ih hget]

/-- When the source key is absent, `add_edge` returns the MissingNode error
and leaves the store untouched. -/
theorem add_edge_absent (s : Store K (GNode K P)) (src dst : K)
    (h : Store.get s src = none) :
    add_edge s src dst =
      (Except.error (ClusterError.detailled
        "To add edge, both node must exists in the Cluster."), s) := by
  have hmod : modifyAdj s src (fun adj => settableAdd adj dst) = none :=
    (modifyAdj_eq_none_iff s src _).mpr h
  simp [add_edge, hmod]

/-- When the source key is present, `add_edge` succeeds, `Settable::add`s the
destination into the source's adjacency list, and touches no other node. -/
theorem add_edge_present (s : Store K (GNode K P)) (src dst : K)
    (v : GNode K P) (h : Store.get s src = some v) :
    (add_edge s src dst).1 = Except.ok () ∧
    Store.get (add_edge s src dst).2 src =
      some ⟨settableAdd v.adj dst, v.payload⟩ ∧
    ∀ k', k' ≠ src → Store.get (add_edge s src dst).2 k' = Store.get s k' := by
  have hmod : modifyAdj s src (fun adj => settableAdd adj dst) ≠ none := by
    intro hc
    rw [modifyAdj_eq_none_iff, h] at hc
    exact Option.noConfusion hc
  obtain ⟨s', hs'⟩ := Option.ne_none_iff_exists'.mp hmod
  refine ⟨by simp [add_edge, hs'], ?_, ?_⟩
  · have := get_modifyAdj_self s s' src (fun adj => settableAdd adj dst) hs'
    simp [add_edge, hs', this, h]
  · intro k' hk'
    have := get_modifyAdj_ne s s' src k' (fun adj => settableAdd adj dst) hk' hs'
    simp [add_edge, hs', this]

/-- When the source key is absent, `remove_edge` returns the MissingNode
error and leaves the store untouched. -/
theorem remove_edge_absent (s : Store K (GNode K P)) (src dst : K)
    (h : Store.get s src = none) :
    remove_edge s src dst =
      (Except.error (ClusterError.detailled "<src> node does not exists."),
        s) := by
  have hmod : modifyAdj s src (fun adj => positionRemove adj dst) = none :=
    (modifyAdj_eq_none_iff s src _).mpr h
  simp [remove_edge, hmod]

/-- When the source key is present, `remove_edge` succeeds, removes the first
occurrence of the destination by position, and touches no other node. -/
theorem remove_edge_present (s : Store K (GNode K P)) (src dst : K)
    (v : GNode K P) (h : Store.get s src = some v) :
    (remove_edge s src dst).1 = Except.ok () ∧
    Store.get (remove_edge s src dst).2 src =
      some ⟨positionRemove v.adj dst, v.payload⟩ ∧
    ∀ k', k' ≠ src → Store.get (remove_edge s src dst).2 k' = Store.get s k' := by
  have hmod : modifyAdj s src (fun adj => positionRemove adj dst) ≠ none := by
    intro hc
    rw [modifyAdj_eq_none_iff, h] at hc
    exact Option.noConfusion hc
  obtain ⟨s', hs'⟩ := Option.ne_none_iff_exists'.mp hmod
  refine ⟨by simp [remove_edge, hs'], ?_, ?_⟩
  · have := get_modifyAdj_self s s' src (fun adj => positionRemove adj dst) hs'
    simp [remove_edge, hs', this, h]
  · intro k' hk'
    have := get_modifyAdj_ne s s' src k' (fun adj => positionRemove adj dst) hk' hs'
    simp [remove_edge, hs', this]

/-- A concrete store over `Nat` keys and payload-free nodes, used to witness
the theorems: key 1 with adjacency `[2]`, key 2 with an empty adjacency. -/
def exS : Store Nat (GNode Nat Unit) :=
  [(1, ⟨[2], ()⟩), (2, ⟨[], ()⟩)]

/-- A concrete `new_key` implementation for `Nat`-keyed stores: one more
than the largest key in use, hence never a current key. -/
def exNewKey (s : Store Nat (GNode Nat Unit)) : Nat :=
  (s.map (fun p => p.1)).foldr max 0 + 1

/-- A concrete node used to witness the theorems. -/
def exNode : GNode Nat Unit :=
  ⟨[7], ()⟩

/-- C2: after the graph-level `add(n)` returns key `k`, `contains_key(k)` is
true and `get(k)` returns the node passed in; `k` is exactly the key minted
by `new_key` and — given `new_key`'s freshness contract, which the trait
leaves to the implementor — was not a store key at the moment of the call. -/
theorem claim_C2_add_retrievable (newKey : Store K (GNode K P) → K)
    (s : Store K (GNode K P)) (n : GNode K P)
    (hfresh : Store.containsKey s (newKey s) = false) :
    Store.containsKey (cluster_add newKey s n).2 (cluster_add newKey s n).1 = true ∧
    Store.get (cluster_add newKey s n).2 (cluster_add newKey s n).1 = some n ∧
    (cluster_add newKey s n).1 = newKey s ∧
    Store.containsKey s (cluster_add newKey s n).1 = false := by
  have hget : Store.get (Store.add s (newKey s) n).2 (newKey s) = some n :=
    Store.get_add_self s (newKey s) n
  refine ⟨?_, hget, rfl, hfresh⟩
  show Store.containsKey (Store.add s (newKey s) n).2 (newKey s) = true
  rw [Store.containsKey_eq_isSome_get, hget]
  rfl

/-- Witness for C2 at the concrete store `exS` with a max-plus-one key
generator. -/
theorem claim_C2_witness :
    Store.containsKey exS (exNewKey exS) = false ∧
    Store.containsKey (cluster_add exNewKey exS exNode).2
      (cluster_add exNewKey exS exNode).1 = true ∧
    Store.get (cluster_add exNewKey exS exNode).2
      (cluster_add exNewKey exS exNode).1 = some exNode ∧
    (cluster_add exNewKey exS exNode).1 = exNewKey exS ∧
    Store.containsKey exS (cluster_add exNewKey exS exNode).1 = false :=
  ⟨by decide, claim_C2_add_retrievable exNewKey exS exNode (by decide)⟩

/-- C3: `add_edge` and `remove_edge` succeed exactly when the source key is
in the store — whatever the destination is — and when the source is absent
each fails with its MissingNode error, leaving the store untouched. -/
theorem claim_C3_missing_node (s : Store K (GNode K P)) (src dst : K) :
    ((add_edge s src dst).1 = Except.ok () ↔ Store.containsKey s src = true) ∧
    ((remove_edge s src dst).1 = Except.ok () ↔ Store.containsKey s src = true) ∧
    (Store.containsKey s src = false →
      add_edge s src dst = (Except.error (ClusterError.detailled
        "To add edge, both node must exists in the Cluster."), s) ∧
      remove_edge s src dst = (Except.error (ClusterError.detailled
        "<src> node does not exists."), s)) := by
  cases hget : Store.get s src with
  | none =>
    have hc : Store.containsKey s src = false := by
      rw [Store.containsKey_eq_isSome_get, hget]
      rfl
    have ha := add_edge_absent s src dst hget
    have hr := remove_edge_absent s src dst hget
    refine ⟨?_, ?_, fun _ => ⟨ha, hr⟩⟩
    · rw [ha, hc]
      simp
    · rw [hr, hc]
      simp
  | some v =>
    have hc : Store.containsKey s src = true := by
      rw [Store.containsKey_eq_isSome_get, hget]
      rfl
    have ha := (add_edge_present s src dst v hget).1
    have hr := (remove_edge_present s src dst v hget).1
    refine ⟨by simp [ha, hc], by simp [hr, hc], fun hcc => ?_⟩
    rw [hc] at hcc
    exact Bool.noConfusion hcc

/-- Witness for C3 at the concrete store `exS` with the absent source key 3. -/
theorem claim_C3_witness :
    Store.containsKey exS 3 = false ∧
    add_edge exS 3 1 = (Except.error (ClusterError.detailled
      "To add edge, both node must exists in the Cluster."), exS) ∧
    remove_edge exS 3 1 = (Except.error (ClusterError.detailled
      "<src> node does not exists."), exS) :=
  ⟨by decide, (claim_C3_missing_node exS 3 1).2.2 (by decide)⟩

/-- C8: removing the node at `k` returns exactly what `get` saw there
(absent when `k` is unknown) and leaves every other key's node — its
adjacency list included — unchanged, so adjacency entries elsewhere that
reference `k` survive as dangling references. -/
theorem claim_C8_remove_frame (s : Store K (GNode K P)) (k : K) :
    (Store.remove s k).1 = Store.get s k ∧
    (Store.containsKey s k = false → (Store.remove s k).1 = none) ∧
    ∀ k', k' ≠ k →
      Store.get (Store.remove s k).2 k' = Store.get s k' ∧
      get_adj (Store.remove s k).2 k' = get_adj s k' := by
  refine ⟨Store.remove_fst s k, ?_, ?_⟩
  · intro hc
    rw [Store.remove_fst s k]
    rw [Store.containsKey_eq_isSome_get] at hc
    cases hget : Store.get s k with
    | none => rfl
    | some v =>
      rw [hget] at hc
      simp at hc
  · intro k' hk'
    have hg := Store.get_remove_ne s k k' hk'
    exact ⟨hg, by simp [get_adj, hg]⟩

/-- Witness for C8 at the concrete store `exS`, removing the absent key 3
and checking key 2 is untouched. -/
theorem claim_C8_witness :
    Store.containsKey exS 3 = false ∧
    (Store.remove exS 3).1 = none ∧
    ((2 : Nat) ≠ 3) ∧
    Store.get (Store.remove exS 3).2 2 = Store.get exS 2 ∧
    get_adj (Store.remove exS 3).2 2 = get_adj exS 2 :=
  ⟨by decide, (claim_C8_remove_frame exS 3).2.1 (by decide), by decide,
    ((claim_C8_remove_frame exS 3).2.2 2 (by decide)).1,
    ((claim_C8_remove_frame exS 3).2.2 2 (by decide)).2⟩

/-- The `Settable` containment test is list membership. -/
theorem settableContains_eq (l : List K) (v : K) :
    settableContains l v = true ↔ v ∈ l := by
  simp [settableContains]

/-- Pushing an already-contained value is a no-op. -/
theorem settableAdd_of_mem (l : List K) (v : K) (h : v ∈ l) :
    settableAdd l v = l := by
  simp [settableAdd, (settableContains_eq l v).mpr h]

/-- Pushing a fresh value appends it. -/
theorem settableAdd_of_not_mem (l : List K) (v : K) (h : v ∉ l) :
    settableAdd l v = l ++ [v] := by
  have hc : settableContains l v = false := by
    cases hcc : settableContains l v
    · rfl
    · exact absurd ((settableContains_eq l v).mp hcc) h
  simp [settableAdd, hc]

/-- Unfolding of positional first-occurrence removal on a cons cell. -/
theorem positionRemove_cons (a : K) (t : List K) (v : K) :
    positionRemove (a :: t) v = if a = v then t else a :: positionRemove t v := by
  by_cases h : a = v
  · simp [positionRemove, List.findIdx?_cons, h]
  · simp only [positionRemove, List.findIdx?_cons, h, decide_False, if_false,
      List.findIdx?_succ, if_neg h]
    cases hf : List.findIdx? (fun i => decide (i = v)) t with
    | none => simp [hf]
    | some j => simp [hf]

/-- Removing a value that is not in the list is a no-op. -/
theorem positionRemove_of_not_mem (l : List K) (v : K) (h : v ∉ l) :
    positionRemove l v = l := by
  induction l with
  | nil => rfl
  | cons a t ih =>
    have ha : ¬ a = v := fun hc => h (by rw [← hc]; exact List.mem_cons_self a t)
    have hm : v ∉ t := fun hc => h (List.mem_cons_of_mem a hc)
    rw [positionRemove_cons, if_neg ha, ih hm]

/-- Removing a contained value deletes exactly its first occurrence, keeping
every other entry in its relative order. -/
theorem positionRemove_of_mem (l : List K) (v : K) (h : v ∈ l) :
    ∃ l1 l2, l = l1 ++ v :: l2 ∧ v ∉ l1 ∧ positionRemove l v = l1 ++ l2 := by
  induction l with
  | nil => cases h
  | cons a t ih =>
    by_cases ha : a = v
    · refine ⟨[], t, ?_, List.not_mem_nil v, ?_⟩
      · rw [ha]
        rfl
      · rw [positionRemove_cons, if_pos ha]
        rfl
    · have hm : v ∈ t := by
        rcases List.mem_cons.mp h with h1 | h1
        · exact absurd (Eq.symm h1) ha
        · exact h1
      obtain ⟨l1, l2, heq, hnm, hpr⟩ := ih hm
      refine ⟨a :: l1, l2, by rw [heq]; rfl, ?_, ?_⟩
      · intro hc
        rcases List.mem_cons.mp hc with h1 | h1
        · exact ha (Eq.symm h1)
        · exact hnm h1
      · rw [positionRemove_cons, if_neg ha, hpr]
        rfl

/-- Destructuring of a successful `get_adj`: the node behind it. -/
theorem get_adj_some (s : Store K (GNode K P)) (k : K) (adj : List K)
    (h : get_adj s k = some adj) :
    ∃ v, Store.get s k = some v ∧ v.adj = adj := by
  rw [get_adj] at h
  cases hget : Store.get s k with
  | none =>
    rw [hget] at h
    exact Option.noConfusion h
  | some v =>
    rw [hget] at h
    exact ⟨v, rfl, by simpa using h⟩

/-- The pushed value is contained afterwards. -/
theorem mem_settableAdd_self (l : List K) (v : K) : v ∈ settableAdd l v := by
  by_cases h : v ∈ l
  · rw [settableAdd_of_mem l v h]
    exact h
  · rw [settableAdd_of_not_mem l v h]
    simp

/-- Removing a value just appended to a list not containing it restores the
list. -/
theorem positionRemove_append_self (l : List K) (v : K) (h : v ∉ l) :
    positionRemove (l ++ [v]) v = l := by
  induction l with
  | nil => simp [positionRemove_cons]
  | cons a t ih =>
    have ha : ¬ a = v := fun hc => h (by rw [← hc]; exact List.mem_cons_self a t)
    have hm : v ∉ t := fun hc => h (List.mem_cons_of_mem a hc)
    rw [List.cons_append, positionRemove_cons, if_neg ha, ih hm]

/-- Adding an edge whose destination is already present leaves the whole
store untouched and succeeds. -/
theorem add_edge_noop_of_mem (s : Store K (GNode K P)) (src dst : K)
    (adj : List K) (hadj : get_adj s src = some adj) (hmem : dst ∈ adj) :
    add_edge s src dst = (Except.ok (), s) := by
  obtain ⟨v, hget, hv⟩ := get_adj_some s src adj hadj
  have hf : settableAdd v.adj dst = v.adj := by
    rw [hv]
    exact settableAdd_of_mem adj dst hmem
  have hmod := modifyAdj_self_eq s src (fun a => settableAdd a dst) v hget hf
  simp [add_edge, hmod]

/-- Removing an edge whose destination is absent leaves the whole store
untouched and succeeds. -/
theorem remove_edge_noop_of_not_mem (s : Store K (GNode K P)) (src dst : K)
    (adj : List K) (hadj : get_adj s src = some adj) (hnm : dst ∉ adj) :
    remove_edge s src dst = (Except.ok (), s) := by
  obtain ⟨v, hget, hv⟩ := get_adj_some s src adj hadj
  have hf : positionRemove v.adj dst = v.adj := by
    rw [hv]
    exact positionRemove_of_not_mem adj dst hnm
  have hmod := modifyAdj_self_eq s src (fun a => positionRemove a dst) v hget hf
  simp [remove_edge, hmod]

/-- When its first half succeeds, `add_doubly_edge` is the second half run
on the first half's state. -/
theorem add_doubly_edge_of_ok (s : Store K (GNode K P)) (src dst : K)
    (h : (add_edge s src dst).1 = Except.ok ()) :
    add_doubly_edge s src dst = add_edge (add_edge s src dst).2 dst src := by
  rw [add_doubly_edge, h]

/-- When its first half fails, `add_doubly_edge` returns that failure with
the untouched state. -/
theorem add_doubly_edge_of_err (s : Store K (GNode K P)) (src dst : K)
    (e : ClusterError) (h : (add_edge s src dst).1 = Except.error e) :
    add_doubly_edge s src dst = (Except.error e, (add_edge s src dst).2) := by
  rw [add_doubly_edge, h]

/-- When its first half succeeds, `remove_doubly_edge` is the second half
run on the first half's state. -/
theorem remove_doubly_edge_of_ok (s : Store K (GNode K P)) (src dst : K)
    (h : (remove_edge s src dst).1 = Except.ok ()) :
    remove_doubly_edge s src dst =
      remove_edge (remove_edge s src dst).2 dst src := by
  rw [remove_doubly_edge, h]

/-- When its first half fails, `remove_doubly_edge` returns that failure
with the untouched state. -/
theorem remove_doubly_edge_of_err (s : Store K (GNode K P)) (src dst : K)
    (e : ClusterError) (h : (remove_edge s src dst).1 = Except.error e) :
    remove_doubly_edge s src dst =
      (Except.error e, (remove_edge s src dst).2) := by
  rw [remove_doubly_edge, h]

/-- C9: when the destination is already in the source's adjacency list,
`add_edge` succeeds and returns the store exactly as it was — the adjacency
list keeps the same entries in the same order and no other node changes. -/
theorem claim_C9_add_edge_noop (s : Store K (GNode K P)) (src dst : K)
    (adj : List K) (hadj : get_adj s src = some adj) (hmem : dst ∈ adj) :
    add_edge s src dst = (Except.ok (), s) :=
  add_edge_noop_of_mem s src dst adj hadj hmem

/-- Witness for C9 at the concrete store `exS`: edge 1→2 already exists. -/
theorem claim_C9_witness :
    get_adj exS 1 = some [2] ∧ (2 ∈ ([2] : List Nat)) ∧
    add_edge exS 1 2 = (Except.ok (), exS) :=
  ⟨by decide, by decide, claim_C9_add_edge_noop exS 1 2 [2] (by decide) (by decide)⟩

/-- C5: with the source present, `remove_edge` succeeds; an absent
destination leaves the store untouched, a present destination has exactly
its first occurrence removed by position, all remaining entries keeping
their relative order, with no other node changed. -/
theorem claim_C5_remove_edge (s : Store K (GNode K P)) (src dst : K)
    (adj : List K) (hadj : get_adj s src = some adj) :
    (remove_edge s src dst).1 = Except.ok () ∧
    (dst ∉ adj → remove_edge s src dst = (Except.ok (), s)) ∧
    (dst ∈ adj → ∃ l1 l2, adj = l1 ++ dst :: l2 ∧ dst ∉ l1 ∧
      get_adj (remove_edge s src dst).2 src = some (l1 ++ l2) ∧
      ∀ k', k' ≠ src →
        Store.get (remove_edge s src dst).2 k' = Store.get s k') := by
  rw [get_adj] at hadj
  cases hget : Store.get s src with
  | none =>
    rw [hget] at hadj
    exact Option.noConfusion hadj
  | some v =>
    rw [hget] at hadj
    have hv : v.adj = adj := by
      simpa using hadj
    obtain ⟨hok, hself, hother⟩ := remove_edge_present s src dst v hget
    refine ⟨hok, ?_, ?_⟩
    · intro hnm
      have hf : positionRemove v.adj dst = v.adj := by
        rw [hv]
        exact positionRemove_of_not_mem adj dst hnm
      have hmod := modifyAdj_self_eq s src (fun a => positionRemove a dst) v hget hf
      simp [remove_edge, hmod]
    · intro hmem
      obtain ⟨l1, l2, heq, hnm, hpr⟩ :=
        positionRemove_of_mem adj dst hmem
      refine ⟨l1, l2, heq, hnm, ?_, hother⟩
      rw [get_adj, hself]
      simp [hv, hpr]

/-- Witness for C5 at the concrete store `exS`, removing edge 1→2 which is
present. -/
theorem claim_C5_witness :
    get_adj exS 1 = some [2] ∧
    ((remove_edge exS 1 2).1 = Except.ok () ∧
     (2 ∉ ([2] : List Nat) → remove_edge exS 1 2 = (Except.ok (), exS)) ∧
     (2 ∈ ([2] : List Nat) → ∃ l1 l2, [2] = l1 ++ 2 :: l2 ∧ 2 ∉ l1 ∧
       get_adj (remove_edge exS 1 2).2 1 = some (l1 ++ l2) ∧
       ∀ k', k' ≠ 1 →
         Store.get (remove_edge exS 1 2).2 k' = Store.get exS k')) :=
  ⟨by decide, claim_C5_remove_edge exS 1 2 [2] (by decide)⟩

/-- C1 counterexample: in the store {1 ↦ adj [2], 2 ↦ adj []} both nodes 1
and 2 exist, yet `add_doubly_edge(1, 2)` followed by
`remove_doubly_edge(1, 2)` leaves node 1's adjacency list `[]`, not its
pre-call `[2]`: the add half was a no-op on the already-present edge but the
remove half still deleted it. -/
theorem claim_C1_counterexample :
    Store.containsKey exS 1 = true ∧ Store.containsKey exS 2 = true ∧
    get_adj (remove_doubly_edge (add_doubly_edge exS 1 2).2 1 2).2 1 ≠
      get_adj exS 1 := by
  decide

/-- C1 (amended): `add_doubly_edge(a, b)` followed by
`remove_doubly_edge(a, b)` succeeds and restores both `a`'s and `b`'s
adjacency lists to their pre-call state, given both `a` and `b` exist
beforehand and neither direction of the edge is already present (`b` not in
`a`'s adjacency list and `a` not in `b`'s). -/
theorem claim_C1_roundtrip (s : Store K (GNode K P)) (a b : K)
    (adjA adjB : List K)
    (ha : get_adj s a = some adjA) (hb : get_adj s b = some adjB)
    (hba : b ∉ adjA) (hab : a ∉ adjB) :
    (add_doubly_edge s a b).1 = Except.ok () ∧
    (remove_doubly_edge (add_doubly_edge s a b).2 a b).1 = Except.ok () ∧
    get_adj (remove_doubly_edge (add_doubly_edge s a b).2 a b).2 a = some adjA ∧
    get_adj (remove_doubly_edge (add_doubly_edge s a b).2 a b).2 b = some adjB := by
  obtain ⟨va, hga, hva⟩ := get_adj_some s a adjA ha
  by_cases heq : a = b
  · subst heq
    have hAB : adjB = adjA := by
      rw [ha] at hb
      exact (Option.some.inj hb).symm
    subst hAB
    obtain ⟨hok1, hself1, hoth1⟩ := add_edge_present s a a va hga
    have hsa : settableAdd va.adj a = adjB ++ [a] := by
      rw [hva]
      exact settableAdd_of_not_mem adjB a hba
    have hs1adj : get_adj (add_edge s a a).2 a = some (adjB ++ [a]) := by
      rw [get_adj, hself1, hsa]
      rfl
    have hnoop : add_edge (add_edge s a a).2 a a =
        (Except.ok (), (add_edge s a a).2) :=
      add_edge_noop_of_mem _ a a (adjB ++ [a]) hs1adj (by simp)
    have hdd : add_doubly_edge s a a = (Except.ok (), (add_edge s a a).2) := by
      rw [add_doubly_edge_of_ok s a a hok1, hnoop]
    have hdd1 : (add_doubly_edge s a a).1 = Except.ok () := by
      rw [hdd]
    have hdd2 : (add_doubly_edge s a a).2 = (add_edge s a a).2 := by
      rw [hdd]
    obtain ⟨v1, hgv1, hv1⟩ := get_adj_some _ a _ hs1adj
    obtain ⟨hok3, hself3, hoth3⟩ := remove_edge_present (add_edge s a a).2 a a v1 hgv1
    have hpr : positionRemove v1.adj a = adjB := by
      rw [hv1]
      exact positionRemove_append_self adjB a hba
    have hs3adj : get_adj (remove_edge (add_edge s a a).2 a a).2 a = some adjB := by
      rw [get_adj, hself3, hpr]
      rfl
    have hnoop4 : remove_edge (remove_edge (add_edge s a a).2 a a).2 a a =
        (Except.ok (), (remove_edge (add_edge s a a).2 a a).2) :=
      remove_edge_noop_of_not_mem _ a a adjB hs3adj hba
    have hrd : remove_doubly_edge (add_edge s a a).2 a a =
        (Except.ok (), (remove_edge (add_edge s a a).2 a a).2) := by
      rw [remove_doubly_edge_of_ok _ a a hok3, hnoop4]
    refine ⟨hdd1, ?_, ?_, ?_⟩
    · rw [hdd2, hrd]
    · rw [hdd2, hrd]
      exact hs3adj
    · rw [hdd2, hrd]
      exact hs3adj
  · obtain ⟨vb, hgb, hvb⟩ := get_adj_some s b adjB hb
    have hneba : b ≠ a := fun hc => heq (Eq.symm hc)
    obtain ⟨hok1, hself1, hoth1⟩ := add_edge_present s a b va hga
    have hsa : settableAdd va.adj b = adjA ++ [b] := by
      rw [hva]
      exact settableAdd_of_not_mem adjA b hba
    have hs1a : Store.get (add_edge s a b).2 a =
        some ⟨adjA ++ [b], va.payload⟩ := by
      rw [hself1, hsa]
    have hs1b : Store.get (add_edge s a b).2 b = some vb :=
      (hoth1 b hneba).trans hgb
    obtain ⟨hok2, hself2, hoth2⟩ := add_edge_present (add_edge s a b).2 b a vb hs1b
    have hsb : settableAdd vb.adj a = adjB ++ [a] := by
      rw [hvb]
      exact settableAdd_of_not_mem adjB a hab
    have hs2b : Store.get (add_edge (add_edge s a b).2 b a).2 b =
        some ⟨adjB ++ [a], vb.payload⟩ := by
      rw [hself2, hsb]
    have hs2a : Store.get (add_edge (add_edge s a b).2 b a).2 a =
        some ⟨adjA ++ [b], va.payload⟩ :=
      (hoth2 a heq).trans hs1a
    have hdd : add_doubly_edge s a b = add_edge (add_edge s a b).2 b a :=
      add_doubly_edge_of_ok s a b hok1
    have hdd1 : (add_doubly_edge s a b).1 = Except.ok () := by
      rw [hdd]
      exact hok2
    have hdd2 : (add_doubly_edge s a b).2 =
        (add_edge (add_edge s a b).2 b a).2 := by
      rw [hdd]
    obtain ⟨hok3, hself3, hoth3⟩ :=
      remove_edge_present (add_edge (add_edge s a b).2 b a).2 a b _ hs2a
    have hpr3 : positionRemove (adjA ++ [b]) b = adjA :=
      positionRemove_append_self adjA b hba
    have hs3a : Store.get
        (remove_edge (add_edge (add_edge s a b).2 b a).2 a b).2 a =
        some ⟨adjA, va.payload⟩ := by
      rw [hself3]
      simp [hpr3]
    have hs3b : Store.get
        (remove_edge (add_edge (add_edge s a b).2 b a).2 a b).2 b =
        some ⟨adjB ++ [a], vb.payload⟩ :=
      (hoth3 b hneba).trans hs2b
    obtain ⟨hok4, hself4, hoth4⟩ :=
      remove_edge_present
        (remove_edge (add_edge (add_edge s a b).2 b a).2 a b).2 b a _ hs3b
    have hpr4 : positionRemove (adjB ++ [a]) a = adjB :=
      positionRemove_append_self adjB a hab
    have hs4b : Store.get
        (remove_edge
          (remove_edge (add_edge (add_edge s a b).2 b a).2 a b).2 b a).2 b =
        some ⟨adjB, vb.payload⟩ := by
      rw [hself4]
      simp [hpr4]
    have hs4a : Store.get
        (remove_edge
          (remove_edge (add_edge (add_edge s a b).2 b a).2 a b).2 b a).2 a =
        some ⟨adjA, va.payload⟩ :=
      (hoth4 a heq).trans hs3a
    have hrd : remove_doubly_edge (add_edge (add_edge s a b).2 b a).2 a b =
        remove_edge
          (remove_edge (add_edge (add_edge s a b).2 b a).2 a b).2 b a :=
      remove_doubly_edge_of_ok _ a b hok3
    refine ⟨hdd1, ?_, ?_, ?_⟩
    · rw [hdd2, hrd]
      exact hok4
    · rw [hdd2, hrd, get_adj, hs4a]
      rfl
    · rw [hdd2, hrd, get_adj, hs4b]
      rfl

/-- A concrete store with two nodes and no edges, the spec's own scenario
store. -/
def exS2 : Store Nat (GNode Nat Unit) :=
  [(1, ⟨[], ()⟩), (2, ⟨[], ()⟩)]

/-- Witness for the amended C1 on the two-node edgeless store, round-tripping
the doubly edge 1–2, which is absent in both directions. -/
theorem claim_C1_witness :
    get_adj exS2 1 = some [] ∧ get_adj exS2 2 = some [] ∧
    (2 ∉ ([] : List Nat)) ∧ (1 ∉ ([] : List Nat)) ∧
    ((add_doubly_edge exS2 1 2).1 = Except.ok () ∧
     (remove_doubly_edge (add_doubly_edge exS2 1 2).2 1 2).1 = Except.ok () ∧
     get_adj (remove_doubly_edge (add_doubly_edge exS2 1 2).2 1 2).2 1 = some [] ∧
     get_adj (remove_doubly_edge (add_doubly_edge exS2 1 2).2 1 2).2 2 = some []) :=
  ⟨by decide, by decide, by decide, by decide,
    claim_C1_roundtrip exS2 1 2 [] [] (by decide) (by decide) (by decide)
      (by decide)⟩

/-- A concrete store whose single node 1 carries a duplicated adjacency
entry, a state the API itself never creates but the claims quantify over. -/
def exDup : Store Nat (GNode Nat Unit) :=
  [(1, ⟨[2, 2], ()⟩)]

/-- C4 counterexample: in the store {1 ↦ adj [2, 2]} the source 1 exists,
yet after calling `add_edge(1, 2)` twice (both no-ops, since 2 is already
contained) the destination 2 still appears twice, not exactly once. -/
theorem claim_C4_counterexample :
    Store.containsKey exDup 1 = true ∧
    get_adj (add_edge (add_edge exDup 1 2).2 1 2).2 1 = some [2, 2] ∧
    ([2, 2] : List Nat).count 2 ≠ 1 := by
  decide

/-- C4 (amended): for src existing and dst appearing at most once in src's
adjacency list beforehand, calling `add_edge(src, dst)` twice leaves dst
appearing exactly once in src's adjacency list. -/
theorem claim_C4_add_edge_idem (s : Store K (GNode K P)) (src dst : K)
    (adj : List K) (hadj : get_adj s src = some adj)
    (hcnt : adj.count dst ≤ 1) :
    ∃ adj', get_adj (add_edge (add_edge s src dst).2 src dst).2 src = some adj' ∧
      adj'.count dst = 1 := by
  by_cases hmem : dst ∈ adj
  · have h1 : add_edge s src dst = (Except.ok (), s) :=
      add_edge_noop_of_mem s src dst adj hadj hmem
    have hcnt1 : adj.count dst = 1 :=
      Nat.le_antisymm hcnt (List.count_pos_iff.mpr hmem)
    refine ⟨adj, ?_, hcnt1⟩
    have h2 : add_edge (add_edge s src dst).2 src dst = (Except.ok (), s) := by
      rw [h1]
      exact h1
    rw [h2]
    exact hadj
  · have hc0 : adj.count dst = 0 := List.count_eq_zero.mpr hmem
    obtain ⟨v, hget, hv⟩ := get_adj_some s src adj hadj
    obtain ⟨hok1, hself1, hoth1⟩ := add_edge_present s src dst v hget
    have hsa : settableAdd v.adj dst = adj ++ [dst] := by
      rw [hv]
      exact settableAdd_of_not_mem adj dst hmem
    have hs1 : get_adj (add_edge s src dst).2 src = some (adj ++ [dst]) := by
      rw [get_adj, hself1, hsa]
      rfl
    have h2 : add_edge (add_edge s src dst).2 src dst =
        (Except.ok (), (add_edge s src dst).2) :=
      add_edge_noop_of_mem _ src dst (adj ++ [dst]) hs1 (by simp)
    refine ⟨adj ++ [dst], ?_, ?_⟩
    · rw [h2]
      exact hs1
    · rw [List.count_append, hc0]
      simp

/-- Witness for the amended C4 on the two-node edgeless store: adding edge
1→2 twice yields adjacency `[2]` with one occurrence of 2. -/
theorem claim_C4_witness :
    get_adj exS2 1 = some [] ∧ (([] : List Nat).count 2 ≤ 1) ∧
    ∃ adj', get_adj (add_edge (add_edge exS2 1 2).2 1 2).2 1 = some adj' ∧
      adj'.count 2 = 1 :=
  ⟨by decide, by decide, claim_C4_add_edge_idem exS2 1 2 [] (by decide) (by decide)⟩

/-- A concrete store whose single node 1 lists itself twice in its own
adjacency list. -/
def exDupSelf : Store Nat (GNode Nat Unit) :=
  [(1, ⟨[1, 1], ()⟩)]

/-- C10 counterexample: in the store {1 ↦ adj [1, 1]} the key 1 is present
and `add_edge(1, 1)` succeeds, but afterwards 1 appears twice — not exactly
once — in its own adjacency list. -/
theorem claim_C10_counterexample :
    Store.containsKey exDupSelf 1 = true ∧
    (add_edge exDupSelf 1 1).1 = Except.ok () ∧
    get_adj (add_edge exDupSelf 1 1).2 1 = some [1, 1] ∧
    ([1, 1] : List Nat).count 1 ≠ 1 := by
  decide

/-- C10 (amended): self-loops are permitted — for any key `k` present in the
store and appearing at most once in its own adjacency list, `add_edge(k, k)`
succeeds and leaves `k` exactly once in its own adjacency list, and
`remove_edge(k, k)` then succeeds and removes it. -/
theorem claim_C10_self_loop (s : Store K (GNode K P)) (k : K) (adj : List K)
    (hadj : get_adj s k = some adj) (hcnt : adj.count k ≤ 1) :
    (add_edge s k k).1 = Except.ok () ∧
    (∃ adj1, get_adj (add_edge s k k).2 k = some adj1 ∧ adj1.count k = 1) ∧
    (remove_edge (add_edge s k k).2 k k).1 = Except.ok () ∧
    (∃ adj2, get_adj (remove_edge (add_edge s k k).2 k k).2 k = some adj2 ∧
      k ∉ adj2) := by
  obtain ⟨v, hget, hv⟩ := get_adj_some s k adj hadj
  by_cases hmem : k ∈ adj
  · have h1 : add_edge s k k = (Except.ok (), s) :=
      add_edge_noop_of_mem s k k adj hadj hmem
    have hcnt1 : adj.count k = 1 :=
      Nat.le_antisymm hcnt (List.count_pos_iff.mpr hmem)
    have hadj1 : get_adj (add_edge s k k).2 k = some adj := by
      rw [h1]
      exact hadj
    obtain ⟨l1, l2, heq, hnm1, hpr⟩ := positionRemove_of_mem adj k hmem
    have hl2 : k ∉ l2 := by
      rw [heq, List.count_append, List.count_cons_self] at hcnt1
      have : l2.count k = 0 := by omega
      exact List.count_eq_zero.mp this
    obtain ⟨hok3, hself3, hoth3⟩ := remove_edge_present (add_edge s k k).2 k k v
      (by rw [h1]; exact hget)
    refine ⟨by rw [h1], ⟨adj, hadj1, hcnt1⟩, hok3, ⟨l1 ++ l2, ?_, ?_⟩⟩
    · rw [get_adj, hself3, hv, hpr]
      rfl
    · intro hc
      rcases List.mem_append.mp hc with h' | h'
      · exact hnm1 h'
      · exact hl2 h'
  · obtain ⟨hok1, hself1, hoth1⟩ := add_edge_present s k k v hget
    have hsa : settableAdd v.adj k = adj ++ [k] := by
      rw [hv]
      exact settableAdd_of_not_mem adj k hmem
    have hs1 : Store.get (add_edge s k k).2 k = some ⟨adj ++ [k], v.payload⟩ := by
      rw [hself1, hsa]
    have hadj1 : get_adj (add_edge s k k).2 k = some (adj ++ [k]) := by
      rw [get_adj, hs1]
      rfl
    have hcnt1 : (adj ++ [k]).count k = 1 := by
      rw [List.count_append, List.count_eq_zero.mpr hmem]
      simp
    obtain ⟨hok3, hself3, hoth3⟩ :=
      remove_edge_present (add_edge s k k).2 k k _ hs1
    refine ⟨hok1, ⟨adj ++ [k], hadj1, hcnt1⟩, hok3, ⟨adj, ?_, hmem⟩⟩
    rw [get_adj, hself3]
    simp [positionRemove_append_self adj k hmem]

/-- Witness for the amended C10 at the concrete store `exS` on key 1, which
is absent from its own adjacency list `[2]`. -/
theorem claim_C10_witness :
    get_adj exS 1 = some [2] ∧ (([2] : List Nat).count 1 ≤ 1) ∧
    ((add_edge exS 1 1).1 = Except.ok () ∧
     (∃ adj1, get_adj (add_edge exS 1 1).2 1 = some adj1 ∧ adj1.count 1 = 1) ∧
     (remove_edge (add_edge exS 1 1).2 1 1).1 = Except.ok () ∧
     (∃ adj2, get_adj (remove_edge (add_edge exS 1 1).2 1 1).2 1 = some adj2 ∧
       1 ∉ adj2)) :=
  ⟨by decide, by decide, claim_C10_self_loop exS 1 [2] (by decide) (by decide)⟩

/-- C6: the composite operations run the `(src, dst)` half first and the
`(dst, src)` half second; with `src` present and `dst` absent the first half
succeeds, the second fails, the caller receives exactly the second half's
MissingNode failure, and the final state is exactly the state left by the
first half — for `add_doubly_edge`, `dst` stays in `src`'s adjacency list. -/
theorem claim_C6_no_rollback (s : Store K (GNode K P)) (src dst : K)
    (hsrc : Store.containsKey s src = true)
    (hdst : Store.containsKey s dst = false) :
    add_doubly_edge s src dst =
      (Except.error (ClusterError.detailled
        "To add edge, both node must exists in the Cluster."),
        (add_edge s src dst).2) ∧
    (∃ adj, get_adj (add_doubly_edge s src dst).2 src = some adj ∧ dst ∈ adj) ∧
    remove_doubly_edge s src dst =
      (Except.error (ClusterError.detailled "<src> node does not exists."),
        (remove_edge s src dst).2) := by
  have hsome : (Store.get s src).isSome := by
    rw [← Store.containsKey_eq_isSome_get]
    exact hsrc
  obtain ⟨v, hget⟩ := Option.isSome_iff_exists.mp hsome
  have hdget : Store.get s dst = none := by
    rw [Store.containsKey_eq_isSome_get] at hdst
    cases h : Store.get s dst with
    | none => rfl
    | some w =>
      rw [h] at hdst
      simp at hdst
  have hne : dst ≠ src := by
    intro hc
    rw [hc, hget] at hdget
    exact Option.noConfusion hdget
  obtain ⟨hok1, hself1, hoth1⟩ := add_edge_present s src dst v hget
  have h1dst : Store.get (add_edge s src dst).2 dst = none :=
    (hoth1 dst hne).trans hdget
  have h2 : add_edge (add_edge s src dst).2 dst src =
      (Except.error (ClusterError.detailled
        "To add edge, both node must exists in the Cluster."),
        (add_edge s src dst).2) :=
    add_edge_absent _ dst src h1dst
  have hdd : add_doubly_edge s src dst =
      (Except.error (ClusterError.detailled
        "To add edge, both node must exists in the Cluster."),
        (add_edge s src dst).2) := by
    rw [add_doubly_edge_of_ok s src dst hok1, h2]
  obtain ⟨hok1r, hself1r, hoth1r⟩ := remove_edge_present s src dst v hget
  have h1dstr : Store.get (remove_edge s src dst).2 dst = none :=
    (hoth1r dst hne).trans hdget
  have h2r := remove_edge_absent _ dst src h1dstr
  refine ⟨hdd, ⟨settableAdd v.adj dst, ?_, mem_settableAdd_self v.adj dst⟩, ?_⟩
  · rw [hdd]
    show get_adj (add_edge s src dst).2 src = some (settableAdd v.adj dst)
    rw [get_adj, hself1]
    rfl
  · rw [remove_doubly_edge_of_ok s src dst hok1r, h2r]

/-- Witness for C6 at the concrete store `exS` with present source 1 and
absent destination 5. -/
theorem claim_C6_witness :
    Store.containsKey exS 1 = true ∧ Store.containsKey exS 5 = false ∧
    (add_doubly_edge exS 1 5 =
      (Except.error (ClusterError.detailled
        "To add edge, both node must exists in the Cluster."),
        (add_edge exS 1 5).2) ∧
     (∃ adj, get_adj (add_doubly_edge exS 1 5).2 1 = some adj ∧ 5 ∈ adj) ∧
     remove_doubly_edge exS 1 5 =
      (Except.error (ClusterError.detailled "<src> node does not exists."),
        (remove_edge exS 1 5).2)) :=
  ⟨by decide, by decide, claim_C6_no_rollback exS 1 5 (by decide) (by decide)⟩

/-- The graph operations named by the spec's invariant: graph-level `add`
and `remove` plus the four edge operations. -/
inductive GraphOp (K P : Type) where
  | addNode (n : GNode K P)
  | removeNode (k : K)
  | addEdge (src dst : K)
  | removeEdge (src dst : K)
  | addDoublyEdge (src dst : K)
  | removeDoublyEdge (src dst : K)
deriving DecidableEq, Repr

/-- Run one graph operation for its effect on the store (failures keep the
state reached, as the Rust methods mutate `self` in place). -/
def runOp (newKey : Store K (GNode K P) → K) (s : Store K (GNode K P)) :
    GraphOp K P → Store K (GNode K P)
  | GraphOp.addNode n => (cluster_add newKey s n).2
  | GraphOp.removeNode k => (Store.remove s k).2
  | GraphOp.addEdge src dst => (add_edge s src dst).2
  | GraphOp.removeEdge src dst => (remove_edge s src dst).2
  | GraphOp.addDoublyEdge src dst => (add_doubly_edge s src dst).2
  | GraphOp.removeDoublyEdge src dst => (remove_doubly_edge s src dst).2

/-- Run a sequence of graph operations. -/
def runOps (newKey : Store K (GNode K P) → K) (s : Store K (GNode K P))
    (ops : List (GraphOp K P)) : Store K (GNode K P) :=
  ops.foldl (runOp newKey) s

/-- The spec's data-model invariant: every node's adjacency list is
duplicate-free. -/
def AdjNodup (s : Store K (GNode K P)) : Prop :=
  ∀ p ∈ s, List.Nodup (p.2.adj)

instance instDecAdjNodup (s : Store K (GNode K P)) : Decidable (AdjNodup s) := by
  unfold AdjNodup
  exact List.decidableBAll _ s

/-- The only operation input the invariant constrains: a node handed to the
graph-level `add` must itself carry a duplicate-free adjacency list. -/
def opInputNodup : GraphOp K P → Prop
  | GraphOp.addNode n => List.Nodup n.adj
  | _ => True

instance instDecOpInputNodup (op : GraphOp K P) : Decidable (opInputNodup op) :=
  match op with
  | GraphOp.addNode n => inferInstanceAs (Decidable (List.Nodup n.adj))
  | GraphOp.removeNode _ => inferInstanceAs (Decidable True)
  | GraphOp.addEdge _ _ => inferInstanceAs (Decidable True)
  | GraphOp.removeEdge _ _ => inferInstanceAs (Decidable True)
  | GraphOp.addDoublyEdge _ _ => inferInstanceAs (Decidable True)
  | GraphOp.removeDoublyEdge _ _ => inferInstanceAs (Decidable True)

/-- `Settable::add` preserves duplicate-freedom. -/
theorem settableAdd_nodup (l : List K) (v : K) (h : l.Nodup) :
    (settableAdd l v).Nodup := by
  by_cases hm : v ∈ l
  · rw [settableAdd_of_mem l v hm]
    exact h
  · rw [settableAdd_of_not_mem l v hm]
    exact List.Nodup.append h (List.nodup_singleton v)
      (by simp [List.disjoint_singleton, hm])

/-- Positional removal preserves duplicate-freedom. -/
theorem positionRemove_nodup (l : List K) (v : K) (h : l.Nodup) :
    (positionRemove l v).Nodup := by
  rw [positionRemove]
  cases List.findIdx? (fun i => decide (i = v)) l with
  | none => exact h
  | some i => exact List.Nodup.sublist (List.eraseIdx_sublist l i) h

/-- Store insertion of a duplicate-free node preserves the invariant. -/
theorem adjNodup_store_add (s : Store K (GNode K P)) (k : K) (n : GNode K P)
    (hs : AdjNodup s) (hn : List.Nodup n.adj) :
    AdjNodup (Store.add s k n).2 := by
  induction s with
  | nil =>
    intro p hp
    simp [Store.add] at hp
    rw [hp]
    exact hn
  | cons q rest ih =>
    obtain ⟨k', v'⟩ := q
    have hv' : List.Nodup v'.adj := hs (k', v') (List.mem_cons_self _ _)
    have hrest : AdjNodup rest := fun p hp => hs p (List.mem_cons_of_mem _ hp)
    by_cases h : k' = k
    · intro p hp
      simp [Store.add, h] at hp
      rcases hp with hp | hp
      · rw [hp]
        exact hn
      · exact hrest p hp
    · intro p hp
      simp [Store.add, h] at hp
      rcases hp with hp | hp
      · rw [hp]
        exact hv'
      · exact ih hrest p hp

/-- Store removal preserves the invariant. -/
theorem adjNodup_store_remove (s : Store K (GNode K P)) (k : K)
    (hs : AdjNodup s) : AdjNodup (Store.remove s k).2 := by
  induction s with
  | nil =>
    intro p hp
    simp [Store.remove] at hp
  | cons q rest ih =>
    obtain ⟨k', v'⟩ := q
    have hv' : List.Nodup v'.adj := hs (k', v') (List.mem_cons_self _ _)
    have hrest : AdjNodup rest := fun p hp => hs p (List.mem_cons_of_mem _ hp)
    by_cases h : k' = k
    · intro p hp
      simp [Store.remove, h] at hp
      exact hrest p hp
    · intro p hp
      simp [Store.remove, h] at hp
      rcases hp with hp | hp
      · rw [hp]
        exact hv'
      · exact ih hrest p hp

/-- An in-place adjacency rewrite by a duplicate-freedom-preserving function
preserves the invariant. -/
theorem adjNodup_modifyAdj (s s' : Store K (GNode K P)) (k : K)
    (f : List K → List K) (hf : ∀ l, List.Nodup l → List.Nodup (f l))
    (hs : AdjNodup s) (h : modifyAdj s k f = some s') : AdjNodup s' := by
  induction s generalizing s' with
  | nil => simp [modifyAdj] at h
  | cons q rest ih =>
    obtain ⟨k', v'⟩ := q
    have hv' : List.Nodup v'.adj := hs (k', v') (List.mem_cons_self _ _)
    have hrest : AdjNodup rest := fun p hp => hs p (List.mem_cons_of_mem _ hp)
    by_cases hk : k' = k
    · simp [modifyAdj, hk] at h
      subst h
      intro p hp
      rcases List.mem_cons.mp hp with hp | hp
      · rw [hp]
        exact hf v'.adj hv'
      · exact hrest p hp
    · simp [modifyAdj, hk] at h
      obtain ⟨r, hr, hs'⟩ := h
      subst hs'
      intro p hp
      rcases List.mem_cons.mp hp with hp | hp
      · rw [hp]
        exact hv'
      · exact ih r hrest hr p hp

/-- `add_edge` preserves the invariant, whether it succeeds or fails. -/
theorem adjNodup_add_edge (s : Store K (GNode K P)) (src dst : K)
    (hs : AdjNodup s) : AdjNodup (add_edge s src dst).2 := by
  cases hm : modifyAdj s src (fun adj => settableAdd adj dst) with
  | none =>
    simp only [add_edge, hm]
    exact hs
  | some s' =>
    simp only [add_edge, hm]
    exact adjNodup_modifyAdj s s' src _ (fun l hl => settableAdd_nodup l dst hl)
      hs hm

/-- `remove_edge` preserves the invariant, whether it succeeds or fails. -/
theorem adjNodup_remove_edge (s : Store K (GNode K P)) (src dst : K)
    (hs : AdjNodup s) : AdjNodup (remove_edge s src dst).2 := by
  cases hm : modifyAdj s src (fun adj => positionRemove adj dst) with
  | none =>
    simp only [remove_edge, hm]
    exact hs
  | some s' =>
    simp only [remove_edge, hm]
    exact adjNodup_modifyAdj s s' src _
      (fun l hl => positionRemove_nodup l dst hl) hs hm

/-- `add_doubly_edge` preserves the invariant. -/
theorem adjNodup_add_doubly_edge (s : Store K (GNode K P)) (src dst : K)
    (hs : AdjNodup s) : AdjNodup (add_doubly_edge s src dst).2 := by
  cases h : (add_edge s src dst).1 with
  | error e =>
    rw [add_doubly_edge_of_err s src dst e h]
    exact adjNodup_add_edge s src dst hs
  | ok u =>
    cases u
    rw [add_doubly_edge_of_ok s src dst h]
    exact adjNodup_add_edge _ dst src (adjNodup_add_edge s src dst hs)

/-- `remove_doubly_edge` preserves the invariant. -/
theorem adjNodup_remove_doubly_edge (s : Store K (GNode K P)) (src dst : K)
    (hs : AdjNodup s) : AdjNodup (remove_doubly_edge s src dst).2 := by
  cases h : (remove_edge s src dst).1 with
  | error e =>
    rw [remove_doubly_edge_of_err s src dst e h]
    exact adjNodup_remove_edge s src dst hs
  | ok u =>
    cases u
    rw [remove_doubly_edge_of_ok s src dst h]
    exact adjNodup_remove_edge _ dst src (adjNodup_remove_edge s src dst hs)

/-- One step of any graph operation preserves the invariant, provided a
node handed to `add` is itself duplicate-free. -/
theorem adjNodup_runOp (newKey : Store K (GNode K P) → K)
    (s : Store K (GNode K P)) (op : GraphOp K P) (hs : AdjNodup s)
    (hop : opInputNodup op) : AdjNodup (runOp newKey s op) := by
  cases op with
  | addNode n => exact adjNodup_store_add s (newKey s) n hs hop
  | removeNode k => exact adjNodup_store_remove s k hs
  | addEdge src dst => exact adjNodup_add_edge s src dst hs
  | removeEdge src dst => exact adjNodup_remove_edge s src dst hs
  | addDoublyEdge src dst => exact adjNodup_add_doubly_edge s src dst hs
  | removeDoublyEdge src dst => exact adjNodup_remove_doubly_edge s src dst hs

/-- C7 counterexample: the graph-level `add` inserts the caller's node
verbatim, so adding a node whose own adjacency list already holds a
duplicate breaks the invariant even starting from the (trivially
duplicate-free) empty store. -/
theorem claim_C7_counterexample :
    AdjNodup ([] : Store Nat (GNode Nat Unit)) ∧
    ¬ AdjNodup (runOps exNewKey [] [GraphOp.addNode ⟨[1, 1], ()⟩]) := by
  decide

/-- C7 (amended): starting from a store whose adjacency lists are all
duplicate-free, any sequence of graph operations in which every node handed
to `add` is itself duplicate-free leaves every adjacency list
duplicate-free. -/
theorem claim_C7_invariant (newKey : Store K (GNode K P) → K)
    (ops : List (GraphOp K P)) :
    ∀ s, AdjNodup s → (∀ op ∈ ops, opInputNodup op) →
      AdjNodup (runOps newKey s ops) := by
  induction ops with
  | nil =>
    intro s hs _
    exact hs
  | cons op rest ih =>
    intro s hs hops
    exact ih (runOp newKey s op)
      (adjNodup_runOp newKey s op hs (hops op (List.mem_cons_self op rest)))
      (fun o ho => hops o (List.mem_cons_of_mem op ho))

/-- Witness for the amended C7: a concrete operation sequence mixing node
insertion, node removal and all four edge operations keeps every adjacency
list duplicate-free. -/
theorem claim_C7_witness :
    AdjNodup exS ∧
    (∀ op ∈ [GraphOp.addEdge 1 2, GraphOp.addDoublyEdge 1 3,
      GraphOp.addNode (⟨[9], ()⟩ : GNode Nat Unit), GraphOp.removeNode 2,
      GraphOp.removeEdge 1 2, GraphOp.removeDoublyEdge 2 1],
      opInputNodup op) ∧
    AdjNodup (runOps exNewKey exS [GraphOp.addEdge 1 2,
      GraphOp.addDoublyEdge 1 3, GraphOp.addNode (⟨[9], ()⟩ : GNode Nat Unit),
      GraphOp.removeNode 2, GraphOp.removeEdge 1 2,
      GraphOp.removeDoublyEdge 2 1]) :=
  ⟨by decide, by decide,
    claim_C7_invariant exNewKey [GraphOp.addEdge 1 2,
      GraphOp.addDoublyEdge 1 3, GraphOp.addNode (⟨[9], ()⟩ : GNode Nat Unit),
      GraphOp.removeNode 2, GraphOp.removeEdge 1 2,
      GraphOp.removeDoublyEdge 2 1] exS (by decide) (by decide)⟩

end ClusterLib
